import Mathlib

/-!
Shallow embedding of the flow-graph editing core of the chatbot flow
builder (`FlowBuilder.jsx`): graph data model, connection policy
(`onConnect`), undo/redo history engine (`pushHistory`, `undo`, `redo`),
save-time validation (`onSave`), cascade node deletion
(`handleNodesChange`) and node text update (`onTextChange`), together
with theorems settling the specification claims about them.
-/

set_option linter.unusedVariables false

/-- The `data` field of a node; only `label` is in scope. -/
structure NodeData where
  label : String
deriving DecidableEq, Repr

/-- Canvas coordinate.  The source stores JS numbers, but no core
operation performs arithmetic on coordinates (they are produced by the
external `screenToFlowPosition` collaborator and carried through), so
they are modelled as integers. -/
structure Position where
  x : Int
  y : Int
deriving DecidableEq, Repr

/-- A flow-graph node as built by `onDrop`. -/
structure Node where
  id : String
  type : String
  position : Position
  data : NodeData
deriving DecidableEq, Repr

/-- A flow-graph edge as stored in the edges collection.  The purely
visual `style` object is omitted; the `animated` marker set by
`onConnect` is kept. -/
structure Edge where
  id : String
  source : String
  sourceHandle : Option String
  target : String
  targetHandle : Option String
  animated : Bool
deriving DecidableEq, Repr

/-- The connection parameters delivered by the canvas collaborator to
`onConnect` (`params`): endpoints and handles, no id yet. -/
structure Connection where
  source : String
  sourceHandle : Option String
  target : String
  targetHandle : Option String
deriving DecidableEq, Repr

/-- One history entry: a snapshot of the node and edge collections
(the deep copy `JSON.parse(JSON.stringify(...))` in the source becomes
plain value copying here, lists being immutable values). -/
structure Snapshot where
  nodes : List Node
  edges : List Edge
deriving DecidableEq, Repr

/-- The empty graph, the single entry `{ nodes: [], edges: [] }` that
`historyRef` starts with. -/
def emptySnap : Snapshot := { nodes := [], edges := [] }

/-- Maximum number of undo/redo history states (`MAX_HISTORY`). -/
def MAX_HISTORY : Nat := 50

/-- The mutable state of the `FlowBuilder` component that the core
operations touch: `historyRef.current`, `historyIndexRef.current`,
`isUndoRedoAction.current`, the live `nodes`/`edges` collections
(as one snapshot) and `selectedNode`. -/
structure HState where
  history : List Snapshot
  index : Nat
  guard : Bool
  live : Snapshot
  selected : Option Node
deriving DecidableEq, Repr

/-- Initial component state: `historyRef = [{ nodes: [], edges: [] }]`,
`historyIndexRef = 0`, `isUndoRedoAction = false`, empty live graph,
no selection. -/
def initState : HState :=
  { history := [emptySnap], index := 0, guard := false,
    live := emptySnap, selected := none }

/-- Model of `pushHistory(newNodes, newEdges)` (lines 57-78): if the
`isUndoRedoAction` guard is armed, disarm it and return without
recording; otherwise discard any future states after the current index,
append the snapshot, shift out the oldest entry when the cap is
exceeded, and point the index at the last entry. -/
def pushHistory (snap : Snapshot) (s : HState) : HState :=
  if s.guard then { s with guard := false }
  else
    let newHistory := s.history.take (s.index + 1) ++ [snap]
    let newHistory :=
      if MAX_HISTORY < newHistory.length then newHistory.drop 1 else newHistory
    { s with history := newHistory, index := newHistory.length - 1 }

/-- A committed structural mutation: every caller of `pushHistory`
(`onConnect`, `onDrop`, `handleNodesChange`, `handleEdgesChange`) first
installs the new collections via `setNodes`/`setEdges` and then calls
`pushHistory` with the same collections. -/
def commit (snap : Snapshot) (s : HState) : HState :=
  pushHistory snap { s with live := snap }

/-- Model of `undo()` (lines 83-94): no-op when the index is at 0; otherwise arm
the guard, step the index back, install a copy of the previous snapshot
as the live graph and clear the selection.  Under the reachability
invariant `index < history.length` (proved below) the `getD` default is
never consulted. -/
def undo (s : HState) : HState :=
  if s.index = 0 then s
  else
    { s with guard := true, index := s.index - 1,
             live := s.history.getD (s.index - 1) emptySnap,
             selected := none }

/-- Model of `redo()` (lines 99-110): no-op when the index is at the last entry;
otherwise arm the guard, step the index forward, install a copy of the
next snapshot and clear the selection. -/
def redo (s : HState) : HState :=
  if s.history.length - 1 ≤ s.index then s
  else
    { s with guard := true, index := s.index + 1,
             live := s.history.getD (s.index + 1) emptySnap,
             selected := none }

/-- Modelled from the spec: the `addEdge` helper imported from the
external React Flow library (used at line 156) is not part of this
repository; per the Graph Store contract in §4.1, `addEdge(edge)`
"appends without policy checks". -/
def addEdge (e : Edge) (es : List Edge) : List Edge := es ++ [e]

/-- Modelled from the spec: deterministic edge id derived from the
connection endpoints, standing in for the id the external library
generates ("opaque unique identifier", §3). -/
def edgeId (c : Connection) : String :=
  "reactflow__edge-" ++ c.source ++ c.sourceHandle.getD "" ++ "-"
    ++ c.target ++ c.targetHandle.getD ""

/-- The edge object `{ ...params, animated: true, style: ... }` built by
`onConnect` on acceptance (line 157). -/
def mkEdge (c : Connection) : Edge :=
  { id := edgeId c, source := c.source, sourceHandle := c.sourceHandle,
    target := c.target, targetHandle := c.targetHandle, animated := true }

/-- Model of `onConnect(params)` (lines 141-164): reject (with a warning toast,
modelled as the returned flag) when some existing edge has the same
`(source, sourceHandle)` pair; otherwise append the new edge and commit
the result to history. -/
def onConnect (params : Connection) (s : HState) : HState × Bool :=
  if ∃ e ∈ s.live.edges,
      e.source = params.source ∧ e.sourceHandle = params.sourceHandle then
    (s, true)
  else
    let newEdges := addEdge (mkEdge params) s.live.edges
    (commit { nodes := s.live.nodes, edges := newEdges } s, false)

/-- Validation outcome reported by `onSave` through the toast sink. -/
inductive SaveOutcome where
  | emptyFlow
  | multipleEntryPoints
  | success
deriving DecidableEq, Repr

/-- The nodes with an empty target handle (no incoming edge): the
complement of `new Set(edges.map(e => e.target))` within `nodes`
(lines 317-320). -/
def unreachedNodes (nodes : List Node) (edges : List Edge) : List Node :=
  nodes.filter (fun n => decide (n.id ∉ edges.map Edge.target))

/-- Model of `onSave()` (lines 307-336): error on an empty node list; error when
more than one node has no incoming edge; success otherwise. -/
def onSave (nodes : List Node) (edges : List Edge) : SaveOutcome :=
  if nodes.length = 0 then .emptyFlow
  else if 1 < (unreachedNodes nodes edges).length then .multipleEntryPoints
  else .success

/-- Model of `onTextChange(newText)` (lines 188-207): map over the nodes,
replacing `data.label` of the node whose id equals `selectedNode?.id`
(`undefined` when nothing is selected, which matches no node), then
resynchronize the `selectedNode` reference with the updated copy when
the lookup finds one. -/
def onTextChange (newText : String) (nodes : List Node)
    (selected : Option Node) : List Node × Option Node :=
  let sid : Option String := selected.map Node.id
  let updated := nodes.map (fun node =>
    if some node.id = sid then
      { node with data := { node.data with label := newText } }
    else node)
  let updatedSelected := updated.find? (fun n => decide (some n.id = sid))
  (updated,
    match updatedSelected with
    | some u => some u
    | none => selected)

/-- A node change event delivered by the canvas collaborator to
`handleNodesChange`; only the change kind and affected id are read by
the core. -/
structure NodeChange where
  type : String
  id : String
deriving DecidableEq, Repr

/-- The removal handling of `handleNodesChange` (lines 262-283): when
some change is a removal, compute the node list without the removed ids,
drop every edge with a removed endpoint, and clear the selection when
the selected node was removed.  (The subsequent `pushHistory` commit is
modelled separately by `commit`.) -/
def handleNodesChange (changes : List NodeChange) (nodes : List Node)
    (edges : List Edge) (selected : Option Node) :
    List Node × List Edge × Option Node :=
  if ∃ c ∈ changes, c.type = "remove" then
    let removedIds :=
      (changes.filter (fun c => decide (c.type = "remove"))).map NodeChange.id
    let remainingNodes := nodes.filter (fun n => decide (n.id ∉ removedIds))
    let remainingEdges := edges.filter
      (fun e => decide (e.source ∉ removedIds ∧ e.target ∉ removedIds))
    (remainingNodes, remainingEdges,
      match selected with
      | some sel => if sel.id ∈ removedIds then none else some sel
      | none => none)
  else (nodes, edges, selected)

/-- The operations that drive the history engine. -/
inductive Op where
  | commit (snap : Snapshot)
  | undo
  | redo
deriving DecidableEq, Repr

/-- One step of the history state machine. -/
def step (s : HState) : Op → HState
  | .commit snap => commit snap s
  | .undo => undo s
  | .redo => redo s

/-- Running a sequence of operations from the initial component state. -/
def run (ops : List Op) : HState := ops.foldl step initState

/-- Number of committed mutations in an operation sequence. -/
def commitCount : List Op → Nat
  | [] => 0
  | .commit _ :: rest => commitCount rest + 1
  | .undo :: rest => commitCount rest
  | .redo :: rest => commitCount rest

/-- A throwaway node used only as a `getD` default in statements that
also carry the in-bounds hypothesis. -/
def dummyNode : Node :=
  { id := "", type := "", position := { x := 0, y := 0 }, data := { label := "" } }

/-- The history/cursor invariant maintained by every operation:
the cursor is in bounds and the history is capped at `MAX_HISTORY`. -/
def histInv (s : HState) : Prop :=
  s.index < s.history.length ∧ s.history.length ≤ MAX_HISTORY

/-- The history list built by a recorded (non-suppressed) `pushHistory`
call: truncate after the cursor, append, evict the oldest entry when
over the cap.  Factored out of `pushHistory` for use in lemma
statements. -/
def newHist (snap : Snapshot) (hist : List Snapshot) (idx : Nat) :
    List Snapshot :=
  if MAX_HISTORY < (hist.take (idx + 1) ++ [snap]).length then
    (hist.take (idx + 1) ++ [snap]).drop 1
  else hist.take (idx + 1) ++ [snap]

/-- A concrete one-node snapshot used in closed counterexample and
witness statements. -/
def snapA : Snapshot := { nodes := [{ dummyNode with id := "A" }], edges := [] }

/-- A second concrete one-node snapshot, distinct from `snapA`. -/
def snapB : Snapshot := { nodes := [{ dummyNode with id := "B" }], edges := [] }

lemma pushHistory_live (snap : Snapshot) (s : HState) :
    (pushHistory snap s).live = s.live := by
  unfold pushHistory
  split <;> rfl

lemma pushHistory_selected (snap : Snapshot) (s : HState) :
    (pushHistory snap s).selected = s.selected := by
  unfold pushHistory
  split <;> rfl

lemma commit_live (snap : Snapshot) (s : HState) :
    (commit snap s).live = snap := by
  unfold commit
  rw [pushHistory_live]

lemma commit_selected (snap : Snapshot) (s : HState) :
    (commit snap s).selected = s.selected := by
  unfold commit
  rw [pushHistory_selected]

/-- C1: the connect operation rejects a proposed edge exactly when an
existing edge shares its `(source, sourceHandle)` pair; on rejection
(warning flag `true`) the whole state — edge list and history included —
is unchanged, and on acceptance the edge list becomes the old list with
the new edge appended. -/
theorem onConnect_rejects_iff_duplicate_source_handle
    (params : Connection) (s : HState) :
    ((onConnect params s).2 = true ↔
      ∃ e ∈ s.live.edges,
        e.source = params.source ∧ e.sourceHandle = params.sourceHandle)
    ∧ ((onConnect params s).2 = true → (onConnect params s).1 = s)
    ∧ ((onConnect params s).2 = false →
        (onConnect params s).1.live.edges = s.live.edges ++ [mkEdge params]) := by
  unfold onConnect
  split
  · rename_i h
    exact ⟨by simpa using h, fun _ => rfl, fun hff => absurd hff (by simp)⟩
  · rename_i h
    refine ⟨by simpa using h, fun hft => absurd hft (by simp), fun _ => ?_⟩
    show (commit
        { nodes := s.live.nodes,
          edges := addEdge (mkEdge params) s.live.edges } s).live.edges = _
    rw [commit_live]
    simp [addEdge]

/-- Closed instance of `onConnect_rejects_iff_duplicate_source_handle`:
a duplicate `(source, sourceHandle)` attempt on a singleton edge list. -/
theorem onConnect_rejects_iff_duplicate_source_handle_witness :
    let c : Connection :=
      { source := "a", sourceHandle := some "h", target := "b",
        targetHandle := none }
    let s : HState :=
      { initState with live := { nodes := [], edges := [mkEdge c] } }
    ((onConnect c s).2 = true ↔
      ∃ e ∈ s.live.edges,
        e.source = c.source ∧ e.sourceHandle = c.sourceHandle)
    ∧ ((onConnect c s).2 = true → (onConnect c s).1 = s)
    ∧ ((onConnect c s).2 = false →
        (onConnect c s).1.live.edges = s.live.edges ++ [mkEdge c]) :=
  onConnect_rejects_iff_duplicate_source_handle _ _

/-- C8: saving with an empty node list reports the empty-flow error, no
matter which edges are present. -/
theorem onSave_empty_flow (edges : List Edge) :
    onSave [] edges = .emptyFlow := rfl

/-- C2: on a non-empty node list, validation reports
`multipleEntryPoints` exactly when more than one node lacks an incoming
edge; one unreached node or none (as in a full cycle) both validate
successfully. -/
theorem onSave_multiple_entry_iff (nodes : List Node) (edges : List Edge)
    (h : nodes ≠ []) :
    (onSave nodes edges = .multipleEntryPoints ↔
      1 < (unreachedNodes nodes edges).length)
    ∧ ((unreachedNodes nodes edges).length = 1 →
        onSave nodes edges = .success)
    ∧ ((unreachedNodes nodes edges).length = 0 →
        onSave nodes edges = .success) := by
  have hlen : ¬ nodes.length = 0 := by
    simpa [List.length_eq_zero] using h
  unfold onSave
  rw [if_neg hlen]
  split
  · rename_i hgt
    exact ⟨by simp [hgt], fun h1 => by omega, fun h0 => by omega⟩
  · rename_i hle
    exact ⟨by simpa using hle, fun _ => rfl, fun _ => rfl⟩

/-- Closed instance of `onSave_multiple_entry_iff`: the two-node full
cycle A→B, B→A from the test properties of the spec, which has no unreached
node and validates successfully. -/
theorem onSave_multiple_entry_iff_witness :
    let nA : Node := { dummyNode with id := "A" }
    let nB : Node := { dummyNode with id := "B" }
    let eAB : Edge :=
      { id := "e1", source := "A", sourceHandle := none, target := "B",
        targetHandle := none, animated := true }
    let eBA : Edge :=
      { id := "e2", source := "B", sourceHandle := none, target := "A",
        targetHandle := none, animated := true }
    ([nA, nB] ≠ ([] : List Node))
    ∧ ((onSave [nA, nB] [eAB, eBA] = .multipleEntryPoints ↔
          1 < (unreachedNodes [nA, nB] [eAB, eBA]).length)
        ∧ ((unreachedNodes [nA, nB] [eAB, eBA]).length = 1 →
            onSave [nA, nB] [eAB, eBA] = .success)
        ∧ ((unreachedNodes [nA, nB] [eAB, eBA]).length = 0 →
            onSave [nA, nB] [eAB, eBA] = .success)) :=
  ⟨by decide, onSave_multiple_entry_iff _ _ (by decide)⟩

lemma list_map_id_on {α : Type} (f : α → α) :
    ∀ l : List α, (∀ a ∈ l, f a = a) → l.map f = l := by
  intro l h
  induction l with
  | nil => rfl
  | cons a t ih =>
    simp only [List.map_cons]
    rw [h a (by simp), ih (fun b hb => h b (by simp [hb]))]

/-- C9: updating the node text with an id that matches no node (in
particular, with no selection at all) returns the node list unchanged by
value equality; in general the operation preserves the length and
rewrites exactly the `data.label` of the nodes whose id matches, leaving
every other node untouched. -/
theorem onTextChange_missing_id_noop (newText : String) (nodes : List Node)
    (selected : Option Node) :
    ((∀ n ∈ nodes, some n.id ≠ selected.map Node.id) →
        (onTextChange newText nodes selected).1 = nodes)
    ∧ (onTextChange newText nodes selected).1.length = nodes.length
    ∧ (∀ i, i < nodes.length →
        (onTextChange newText nodes selected).1.getD i dummyNode =
          (if some (nodes.getD i dummyNode).id = selected.map Node.id then
            { nodes.getD i dummyNode with
                data := { (nodes.getD i dummyNode).data with
                            label := newText } }
          else nodes.getD i dummyNode)) := by
  refine ⟨?_, ?_, ?_⟩
  · intro h
    show nodes.map _ = nodes
    apply list_map_id_on
    intro a ha
    simp only
    rw [if_neg (h a ha)]
  · show (nodes.map _).length = nodes.length
    exact List.length_map _ _
  · intro i hi
    show (nodes.map _).getD i dummyNode = _
    rw [List.getD_eq_getElem?_getD, List.getElem?_map,
        List.getElem?_eq_getElem hi, List.getD_eq_getElem nodes dummyNode hi]
    rfl

/-- Closed instance of `onTextChange_missing_id_noop`: a text edit with
a selected node whose id matches no node in the list leaves the list
unchanged. -/
theorem onTextChange_missing_id_noop_witness :
    let n1 : Node := { dummyNode with id := "n1" }
    let ghost : Node := { dummyNode with id := "ghost" }
    ((∀ n ∈ [n1], some n.id ≠ (some ghost).map Node.id) →
        (onTextChange "hello" [n1] (some ghost)).1 = [n1])
    ∧ (onTextChange "hello" [n1] (some ghost)).1.length = [n1].length
    ∧ (∀ i, i < [n1].length →
        (onTextChange "hello" [n1] (some ghost)).1.getD i dummyNode =
          (if some ([n1].getD i dummyNode).id = (some ghost).map Node.id then
            { [n1].getD i dummyNode with
                data := { ([n1].getD i dummyNode).data with
                            label := "hello" } }
          else [n1].getD i dummyNode)) :=
  onTextChange_missing_id_noop "hello" _ _

/-- C7: node removal keeps exactly the nodes whose id is not among the
removed ids and exactly the edges with neither endpoint among them
(kept elements unchanged as values, in order), and clears the selection
precisely when the selected node was removed. -/
theorem handleNodesChange_cascade (changes : List NodeChange)
    (nodes : List Node) (edges : List Edge) (selected : Option Node) :
    (∀ n, n ∈ (handleNodesChange changes nodes edges selected).1 ↔
        n ∈ nodes ∧
          n.id ∉ (changes.filter
            (fun c => decide (c.type = "remove"))).map NodeChange.id)
    ∧ (∀ e, e ∈ (handleNodesChange changes nodes edges selected).2.1 ↔
        e ∈ edges ∧
          e.source ∉ (changes.filter
            (fun c => decide (c.type = "remove"))).map NodeChange.id ∧
          e.target ∉ (changes.filter
            (fun c => decide (c.type = "remove"))).map NodeChange.id)
    ∧ (∀ sel, selected = some sel →
        sel.id ∈ (changes.filter
            (fun c => decide (c.type = "remove"))).map NodeChange.id →
        (handleNodesChange changes nodes edges selected).2.2 = none)
    ∧ (∀ sel, selected = some sel →
        sel.id ∉ (changes.filter
            (fun c => decide (c.type = "remove"))).map NodeChange.id →
        (handleNodesChange changes nodes edges selected).2.2 = some sel)
    ∧ (selected = none →
        (handleNodesChange changes nodes edges selected).2.2 = none) := by
  unfold handleNodesChange
  split
  · rename_i h
    refine ⟨?_, ?_, ?_, ?_, ?_⟩
    · intro n
      simp [List.mem_filter]
    · intro e
      simp [List.mem_filter]
    · intro sel hsel hmem
      simp only [hsel]
      rw [if_pos hmem]
    · intro sel hsel hmem
      simp only [hsel]
      rw [if_neg hmem]
    · intro hnone
      simp only [hnone]
  · rename_i h
    have hnil : changes.filter (fun c => decide (c.type = "remove")) = [] := by
      rw [List.filter_eq_nil_iff]
      intro c hc
      simp only [decide_eq_true_eq]
      exact fun hty => h ⟨c, hc, hty⟩
    refine ⟨?_, ?_, ?_, ?_, ?_⟩
    · intro n
      simp [hnil]
    · intro e
      simp [hnil]
    · intro sel hsel hmem
      rw [hnil] at hmem
      simp at hmem
    · intro sel hsel hmem
      exact hsel
    · intro hnone
      exact hnone

/-- Closed instance of `handleNodesChange_cascade`: removing node "A"
from a two-node graph with an A→B edge, while "A" is selected. -/
theorem handleNodesChange_cascade_witness :
    let nA : Node := { dummyNode with id := "A" }
    let nB : Node := { dummyNode with id := "B" }
    let eAB : Edge :=
      { id := "e1", source := "A", sourceHandle := none, target := "B",
        targetHandle := none, animated := true }
    let ch : NodeChange := { type := "remove", id := "A" }
    (∀ n, n ∈ (handleNodesChange [ch] [nA, nB] [eAB] (some nA)).1 ↔
        n ∈ [nA, nB] ∧
          n.id ∉ (List.filter
            (fun c => decide (c.type = "remove")) [ch]).map NodeChange.id)
    ∧ (∀ e, e ∈ (handleNodesChange [ch] [nA, nB] [eAB] (some nA)).2.1 ↔
        e ∈ [eAB] ∧
          e.source ∉ (List.filter
            (fun c => decide (c.type = "remove")) [ch]).map NodeChange.id ∧
          e.target ∉ (List.filter
            (fun c => decide (c.type = "remove")) [ch]).map NodeChange.id)
    ∧ (∀ sel, (some nA : Option Node) = some sel →
        sel.id ∈ (List.filter
            (fun c => decide (c.type = "remove")) [ch]).map NodeChange.id →
        (handleNodesChange [ch] [nA, nB] [eAB] (some nA)).2.2 = none)
    ∧ (∀ sel, (some nA : Option Node) = some sel →
        sel.id ∉ (List.filter
            (fun c => decide (c.type = "remove")) [ch]).map NodeChange.id →
        (handleNodesChange [ch] [nA, nB] [eAB] (some nA)).2.2 = some sel)
    ∧ ((some nA : Option Node) = none →
        (handleNodesChange [ch] [nA, nB] [eAB] (some nA)).2.2 = none) :=
  handleNodesChange_cascade _ _ _ _

lemma pushHistory_guard_eq (snap : Snapshot) (s : HState)
    (hg : s.guard = true) :
    pushHistory snap s = { s with guard := false } := by
  unfold pushHistory
  rw [if_pos hg]

lemma pushHistory_eq (snap : Snapshot) (s : HState) (hg : s.guard = false) :
    pushHistory snap s =
      { s with history := newHist snap s.history s.index,
               index := (newHist snap s.history s.index).length - 1 } := by
  unfold pushHistory newHist
  rw [if_neg (by simp [hg])]

lemma commit_guard_eq (snap : Snapshot) (s : HState) (hg : s.guard = true) :
    commit snap s = { s with live := snap, guard := false } := by
  unfold commit
  exact pushHistory_guard_eq snap _ hg

lemma commit_eq (snap : Snapshot) (s : HState) (hg : s.guard = false) :
    commit snap s =
      { s with live := snap,
               history := newHist snap s.history s.index,
               index := (newHist snap s.history s.index).length - 1 } := by
  unfold commit
  exact pushHistory_eq snap _ hg

lemma undo_zero_eq (s : HState) (h0 : s.index = 0) : undo s = s := by
  unfold undo
  rw [if_pos h0]

lemma undo_pos_eq (s : HState) (h0 : ¬ s.index = 0) :
    undo s = { s with guard := true, index := s.index - 1,
                      live := s.history.getD (s.index - 1) emptySnap,
                      selected := none } := by
  unfold undo
  rw [if_neg h0]

lemma redo_last_eq (s : HState) (h0 : s.history.length - 1 ≤ s.index) :
    redo s = s := by
  unfold redo
  rw [if_pos h0]

lemma redo_mid_eq (s : HState) (h0 : ¬ s.history.length - 1 ≤ s.index) :
    redo s = { s with guard := true, index := s.index + 1,
                      live := s.history.getD (s.index + 1) emptySnap,
                      selected := none } := by
  unfold redo
  rw [if_neg h0]

lemma newHist_length (snap : Snapshot) (hist : List Snapshot) (idx : Nat)
    (h1 : idx < hist.length) (h2 : hist.length ≤ MAX_HISTORY) :
    (newHist snap hist idx).length = min (idx + 2) MAX_HISTORY := by
  unfold newHist
  have hlen0 : (hist.take (idx + 1) ++ [snap]).length = idx + 2 := by
    rw [List.length_append, List.length_take]
    simp only [List.length_cons, List.length_nil]
    omega
  split
  · rename_i hgt
    rw [List.length_drop, hlen0]
    rw [hlen0] at hgt
    unfold MAX_HISTORY at *
    omega
  · rename_i hle
    rw [hlen0]
    rw [hlen0] at hle
    unfold MAX_HISTORY at *
    omega

lemma histInv_pushHistory (snap : Snapshot) (s : HState) (h : histInv s) :
    histInv (pushHistory snap s) := by
  obtain ⟨h1, h2⟩ := h
  by_cases hg : s.guard = true
  · rw [pushHistory_guard_eq snap s hg]
    exact ⟨h1, h2⟩
  · have hg' : s.guard = false := by simpa using hg
    rw [pushHistory_eq snap s hg']
    have hL := newHist_length snap s.history s.index h1 h2
    constructor
    · show (newHist snap s.history s.index).length - 1 <
        (newHist snap s.history s.index).length
      rw [hL]
      unfold MAX_HISTORY
      omega
    · show (newHist snap s.history s.index).length ≤ MAX_HISTORY
      rw [hL]
      unfold MAX_HISTORY
      omega

lemma histInv_commit (snap : Snapshot) (s : HState) (h : histInv s) :
    histInv (commit snap s) :=
  histInv_pushHistory snap { s with live := snap } ⟨h.1, h.2⟩

lemma histInv_undo (s : HState) (h : histInv s) : histInv (undo s) := by
  obtain ⟨h1, h2⟩ := h
  by_cases h0 : s.index = 0
  · rw [undo_zero_eq s h0]
    exact ⟨h1, h2⟩
  · rw [undo_pos_eq s h0]
    refine ⟨?_, h2⟩
    show s.index - 1 < s.history.length
    omega

lemma histInv_redo (s : HState) (h : histInv s) : histInv (redo s) := by
  obtain ⟨h1, h2⟩ := h
  by_cases h0 : s.history.length - 1 ≤ s.index
  · rw [redo_last_eq s h0]
    exact ⟨h1, h2⟩
  · rw [redo_mid_eq s h0]
    refine ⟨?_, h2⟩
    show s.index + 1 < s.history.length
    omega

lemma histInv_step (s : HState) (op : Op) (h : histInv s) :
    histInv (step s op) := by
  cases op with
  | commit snap => exact histInv_commit snap s h
  | undo => exact histInv_undo s h
  | redo => exact histInv_redo s h

lemma histInv_foldl : ∀ (ops : List Op) (s : HState), histInv s →
    histInv (ops.foldl step s) := by
  intro ops
  induction ops with
  | nil => intro s h; exact h
  | cons op rest ih =>
    intro s h
    exact ih (step s op) (histInv_step s op h)

lemma histInv_init : histInv initState :=
  ⟨by decide, by decide⟩

lemma histInv_run (ops : List Op) : histInv (run ops) :=
  histInv_foldl ops initState histInv_init

lemma commit_at_end (snap : Snapshot) (s : HState) (hg : s.guard = false)
    (hi : s.index + 1 = s.history.length)
    (hle : s.history.length ≤ MAX_HISTORY) :
    (commit snap s).history =
        (s.history ++ [snap]).drop (s.history.length + 1 - MAX_HISTORY)
    ∧ (commit snap s).index + 1 = (commit snap s).history.length
    ∧ (commit snap s).guard = false
    ∧ (commit snap s).live = snap
    ∧ (commit snap s).history.length =
        min (s.history.length + 1) MAX_HISTORY := by
  have htake : s.history.take (s.index + 1) = s.history := by
    rw [hi]
    exact List.take_length _
  have hnh : newHist snap s.history s.index =
      (s.history ++ [snap]).drop (s.history.length + 1 - MAX_HISTORY) := by
    unfold newHist
    rw [htake]
    split
    · rename_i hgt
      rw [List.length_append] at hgt
      simp only [List.length_cons, List.length_nil] at hgt
      have hd : s.history.length + 1 - MAX_HISTORY = 1 := by
        unfold MAX_HISTORY at *
        omega
      rw [hd]
    · rename_i hle2
      rw [List.length_append] at hle2
      simp only [List.length_cons, List.length_nil] at hle2
      have hd : s.history.length + 1 - MAX_HISTORY = 0 := by
        unfold MAX_HISTORY at *
        omega
      rw [hd, List.drop_zero]
  have hlen : (newHist snap s.history s.index).length =
      min (s.history.length + 1) MAX_HISTORY := by
    rw [hnh, List.length_drop, List.length_append]
    simp only [List.length_cons, List.length_nil]
    unfold MAX_HISTORY
    omega
  rw [commit_eq snap s hg]
  refine ⟨?_, ?_, hg, rfl, ?_⟩
  · exact hnh
  · show (newHist snap s.history s.index).length - 1 + 1 =
      (newHist snap s.history s.index).length
    rw [hlen]
    unfold MAX_HISTORY
    omega
  · exact hlen

lemma run_commits (l : List Snapshot) : ∀ (s : HState),
    s.guard = false → s.index + 1 = s.history.length →
    s.history.length ≤ MAX_HISTORY →
    ((l.map Op.commit).foldl step s).history =
        (s.history ++ l).drop (s.history.length + l.length - MAX_HISTORY)
    ∧ ((l.map Op.commit).foldl step s).index + 1 =
        ((l.map Op.commit).foldl step s).history.length
    ∧ ((l.map Op.commit).foldl step s).guard = false
    ∧ ((l.map Op.commit).foldl step s).history.length =
        min (s.history.length + l.length) MAX_HISTORY
    ∧ ((l.map Op.commit).foldl step s).live = l.getLastD s.live := by
  induction l with
  | nil =>
    intro s hg hi hle
    simp only [List.map_nil, List.foldl_nil, List.length_nil, Nat.add_zero,
      List.append_nil]
    have h0 : s.history.length - MAX_HISTORY = 0 := by
      unfold MAX_HISTORY at *
      omega
    rw [h0, List.drop_zero]
    refine ⟨rfl, hi, hg, ?_, rfl⟩
    unfold MAX_HISTORY at *
    omega
  | cons a l' ih =>
    intro s hg hi hle
    simp only [List.map_cons, List.foldl_cons, step]
    obtain ⟨c1, c2, c3, c4, c5⟩ := commit_at_end a s hg hi hle
    have hle1 : (commit a s).history.length ≤ MAX_HISTORY := by
      rw [c5]
      unfold MAX_HISTORY
      omega
    obtain ⟨r1, r2, r3, r4, r5⟩ := ih (commit a s) c3 c2 hle1
    refine ⟨?_, r2, r3, ?_, ?_⟩
    · rw [r1, c5, c1]
      have hd1 : s.history.length + 1 - MAX_HISTORY ≤
          (s.history ++ [a]).length := by
        rw [List.length_append]
        simp only [List.length_cons, List.length_nil]
        omega
      rw [← List.drop_append_of_le_length hd1, List.drop_drop,
        List.append_assoc, List.singleton_append]
      have harith : s.history.length + 1 - MAX_HISTORY +
          (min (s.history.length + 1) MAX_HISTORY + l'.length - MAX_HISTORY) =
          s.history.length + (a :: l').length - MAX_HISTORY := by
        simp only [List.length_cons]
        unfold MAX_HISTORY at *
        omega
      rw [Nat.add_comm (s.history.length + 1 - MAX_HISTORY)
        (min (s.history.length + 1) MAX_HISTORY + l'.length - MAX_HISTORY)]
      rw [← harith, Nat.add_comm]
    · rw [r4, c5]
      simp only [List.length_cons]
      unfold MAX_HISTORY at *
      omega
    · rw [r5, c4]
      rw [List.getLastD_cons]

lemma undo_iter : ∀ (k : Nat) (s : HState), k ≤ s.index →
    s.index < s.history.length →
    (undo^[k] s).history = s.history
    ∧ (undo^[k] s).index = s.index - k
    ∧ (0 < k →
        (undo^[k] s).live = s.history.getD (s.index - k) emptySnap
        ∧ (undo^[k] s).guard = true
        ∧ (undo^[k] s).selected = none) := by
  intro k
  induction k with
  | zero =>
    intro s hk hlt
    refine ⟨rfl, ?_, ?_⟩
    · show s.index = s.index - 0
      omega
    · intro h
      exact absurd h (by omega)
  | succ k ih =>
    intro s hk hlt
    have hk' : k ≤ s.index := by omega
    obtain ⟨ih1, ih2, ih3⟩ := ih s hk' hlt
    have hne : ¬ (undo^[k] s).index = 0 := by
      rw [ih2]
      omega
    rw [Function.iterate_succ_apply', undo_pos_eq _ hne]
    refine ⟨?_, ?_, fun _ => ⟨?_, rfl, rfl⟩⟩
    · show (undo^[k] s).history = s.history
      exact ih1
    · show (undo^[k] s).index - 1 = s.index - (k + 1)
      rw [ih2]
      omega
    · show (undo^[k] s).history.getD ((undo^[k] s).index - 1) emptySnap =
        s.history.getD (s.index - (k + 1)) emptySnap
      rw [ih1, ih2]
      congr 1

/-- C3: (a) in every state reachable from the initial component state by
any sequence of commit, undo and redo operations, the cursor is strictly
inside the history and the history never exceeds `MAX_HISTORY = 50`
entries; (b) committing any 60 mutations in sequence leaves exactly 50
entries — the last 50 of the 60 committed snapshots, the oldest 10
having been evicted — with the cursor at the most recent snapshot, and
49 repeated `undo()` calls land on the oldest retained snapshot, a
further `undo()` being a no-op. -/
theorem history_invariant_and_60_commit_bound (ops : List Op)
    (l : List Snapshot) (hl : l.length = 60) :
    ((run ops).index < (run ops).history.length
      ∧ (run ops).history.length ≤ MAX_HISTORY)
    ∧ (run (l.map Op.commit)).history = l.drop 10
    ∧ (run (l.map Op.commit)).history.length = 50
    ∧ (run (l.map Op.commit)).index = 49
    ∧ (run (l.map Op.commit)).live = l.getLastD emptySnap
    ∧ (undo^[49] (run (l.map Op.commit))).history = l.drop 10
    ∧ (undo^[49] (run (l.map Op.commit))).index = 0
    ∧ (undo^[49] (run (l.map Op.commit))).live = l.getD 10 emptySnap
    ∧ undo (undo^[49] (run (l.map Op.commit))) =
        undo^[49] (run (l.map Op.commit)) := by
  obtain ⟨r1, r2, r3, r4, r5⟩ :=
    run_commits l initState rfl rfl (by decide)
  have hrun : run (l.map Op.commit) = (l.map Op.commit).foldl step initState :=
    rfl
  have h11 : initState.history.length + l.length - MAX_HISTORY = 11 := by
    rw [hl]
    decide
  have hist60 : (run (l.map Op.commit)).history = l.drop 10 := by
    rw [hrun, r1, h11]
    show (emptySnap :: l).drop (Nat.succ 10) = l.drop 10
    rw [List.drop_succ_cons]
  have len60 : (run (l.map Op.commit)).history.length = 50 := by
    rw [hrun, r4, hl]
    decide
  have idx60 : (run (l.map Op.commit)).index = 49 := by
    rw [hrun] at len60 ⊢
    omega
  have live60 : (run (l.map Op.commit)).live = l.getLastD emptySnap := by
    rw [hrun]
    exact r5
  have hlt : (run (l.map Op.commit)).index <
      (run (l.map Op.commit)).history.length := by
    rw [idx60, len60]
    omega
  obtain ⟨u1, u2, u3⟩ := undo_iter 49 (run (l.map Op.commit))
    (by rw [idx60]) hlt
  obtain ⟨u3a, u3b, u3c⟩ := u3 (by omega)
  have u2' : (undo^[49] (run (l.map Op.commit))).index = 0 := by
    rw [u2, idx60]
  refine ⟨⟨(histInv_run ops).1, (histInv_run ops).2⟩, hist60, len60, idx60,
    live60, by rw [u1, hist60], u2', ?_, undo_zero_eq _ u2'⟩
  rw [u3a, idx60, hist60]
  show (l.drop 10).getD 0 emptySnap = l.getD 10 emptySnap
  rw [List.getD_eq_getElem?_getD, List.getElem?_drop,
    List.getD_eq_getElem?_getD]

/-- Closed instance of `history_invariant_and_60_commit_bound`: the
empty operation sequence together with 60 concrete commits of `snapA`. -/
theorem history_invariant_and_60_commit_bound_witness :
    ((run []).index < (run []).history.length
      ∧ (run []).history.length ≤ MAX_HISTORY)
    ∧ (run ((List.replicate 60 snapA).map Op.commit)).history =
        (List.replicate 60 snapA).drop 10
    ∧ (run ((List.replicate 60 snapA).map Op.commit)).history.length = 50
    ∧ (run ((List.replicate 60 snapA).map Op.commit)).index = 49
    ∧ (run ((List.replicate 60 snapA).map Op.commit)).live =
        (List.replicate 60 snapA).getLastD emptySnap
    ∧ (undo^[49] (run ((List.replicate 60 snapA).map Op.commit))).history =
        (List.replicate 60 snapA).drop 10
    ∧ (undo^[49] (run ((List.replicate 60 snapA).map Op.commit))).index = 0
    ∧ (undo^[49] (run ((List.replicate 60 snapA).map Op.commit))).live =
        (List.replicate 60 snapA).getD 10 emptySnap
    ∧ undo (undo^[49] (run ((List.replicate 60 snapA).map Op.commit))) =
        undo^[49] (run ((List.replicate 60 snapA).map Op.commit)) :=
  history_invariant_and_60_commit_bound [] (List.replicate 60 snapA)
    (by decide)

lemma pushHistory_guard_false (snap : Snapshot) (s : HState) :
    (pushHistory snap s).guard = false := by
  by_cases hg : s.guard = true
  · rw [pushHistory_guard_eq snap s hg]
  · have hg' : s.guard = false := by simpa using hg
    rw [pushHistory_eq snap s hg']
    exact hg'

lemma newHist_getLastD (snap : Snapshot) (hist : List Snapshot) (idx : Nat) :
    (newHist snap hist idx).getLastD emptySnap = snap := by
  unfold newHist
  split
  · rename_i hgt
    cases h : hist.take (idx + 1) with
    | nil =>
      rw [h, List.nil_append] at hgt
      simp only [List.length_cons, List.length_nil] at hgt
      exact absurd hgt (by decide)
    | cons a t =>
      show (t ++ [snap]).getLastD emptySnap = snap
      exact List.getLastD_concat _ _ _
  · exact List.getLastD_concat _ _ _

/-- C5: the commit-suppression guard (`isUndoRedoAction`) is never left
armed by `pushHistory`/`commit`; an armed guard makes the next commit
leave history and cursor untouched while disarming itself; a disarmed
commit really records its snapshot as the newest entry; and only an
effective `undo()`/`redo()` (one that moves the cursor) arms the guard —
the boundary calls are identity no-ops. -/
theorem guard_armed_only_by_undo_redo (snap : Snapshot) (s : HState) :
    (pushHistory snap s).guard = false
    ∧ (commit snap s).guard = false
    ∧ (s.guard = true →
        (commit snap s).history = s.history
        ∧ (commit snap s).index = s.index
        ∧ (commit snap s).guard = false)
    ∧ (s.guard = false →
        (commit snap s).history.getLastD emptySnap = snap)
    ∧ (s.index = 0 → undo s = s)
    ∧ (0 < s.index → (undo s).guard = true)
    ∧ (s.history.length - 1 ≤ s.index → redo s = s)
    ∧ (s.index < s.history.length - 1 → (redo s).guard = true) := by
  refine ⟨pushHistory_guard_false snap s,
    pushHistory_guard_false snap { s with live := snap }, ?_, ?_,
    undo_zero_eq s, ?_, redo_last_eq s, ?_⟩
  · intro hg
    rw [commit_guard_eq snap s hg]
    exact ⟨rfl, rfl, rfl⟩
  · intro hg
    rw [commit_eq snap s hg]
    exact newHist_getLastD snap s.history s.index
  · intro hp
    rw [undo_pos_eq s (by omega)]
  · intro hp
    rw [redo_mid_eq s (by omega)]

/-- Closed instance of `guard_armed_only_by_undo_redo` at a two-entry
history with the guard armed. -/
theorem guard_armed_only_by_undo_redo_witness :
    let s : HState :=
      { history := [emptySnap, snapA], index := 1, guard := true,
        live := snapA, selected := none }
    (pushHistory snapB s).guard = false
    ∧ (commit snapB s).guard = false
    ∧ (s.guard = true →
        (commit snapB s).history = s.history
        ∧ (commit snapB s).index = s.index
        ∧ (commit snapB s).guard = false)
    ∧ (s.guard = false →
        (commit snapB s).history.getLastD emptySnap = snapB)
    ∧ (s.index = 0 → undo s = s)
    ∧ (0 < s.index → (undo s).guard = true)
    ∧ (s.history.length - 1 ≤ s.index → redo s = s)
    ∧ (s.index < s.history.length - 1 → (redo s).guard = true) :=
  guard_armed_only_by_undo_redo snapB _

/-- C6: `undo()` at cursor 0 and `redo()` at the last entry are complete
no-ops (state unchanged, nothing surfaced); otherwise they move the
cursor by exactly one, install the snapshot at the new cursor as the
live graph, clear the selection, and neither ever adds or removes a
history entry. -/
theorem undo_redo_move_cursor (s : HState)
    (h : s.index < s.history.length) :
    (s.index = 0 → undo s = s)
    ∧ (s.index = s.history.length - 1 → redo s = s)
    ∧ (0 < s.index →
        (undo s).index = s.index - 1
        ∧ (undo s).history = s.history
        ∧ (undo s).live = s.history.getD (s.index - 1) emptySnap
        ∧ (undo s).selected = none)
    ∧ (s.index + 1 < s.history.length →
        (redo s).index = s.index + 1
        ∧ (redo s).history = s.history
        ∧ (redo s).live = s.history.getD (s.index + 1) emptySnap
        ∧ (redo s).selected = none)
    ∧ (undo s).history = s.history
    ∧ (redo s).history = s.history := by
  refine ⟨undo_zero_eq s, ?_, ?_, ?_, ?_, ?_⟩
  · intro hl
    exact redo_last_eq s (by omega)
  · intro hp
    rw [undo_pos_eq s (by omega)]
    exact ⟨rfl, rfl, rfl, rfl⟩
  · intro hp
    rw [redo_mid_eq s (by omega)]
    exact ⟨rfl, rfl, rfl, rfl⟩
  · by_cases h0 : s.index = 0
    · rw [undo_zero_eq s h0]
    · rw [undo_pos_eq s h0]
  · by_cases h0 : s.history.length - 1 ≤ s.index
    · rw [redo_last_eq s h0]
    · rw [redo_mid_eq s h0]

/-- Closed instance of `undo_redo_move_cursor` at a two-entry history
with the cursor on the newest entry. -/
theorem undo_redo_move_cursor_witness :
    let s : HState :=
      { history := [emptySnap, snapA], index := 1, guard := false,
        live := snapA, selected := none }
    (s.index = 0 → undo s = s)
    ∧ (s.index = s.history.length - 1 → redo s = s)
    ∧ (0 < s.index →
        (undo s).index = s.index - 1
        ∧ (undo s).history = s.history
        ∧ (undo s).live = s.history.getD (s.index - 1) emptySnap
        ∧ (undo s).selected = none)
    ∧ (s.index + 1 < s.history.length →
        (redo s).index = s.index + 1
        ∧ (redo s).history = s.history
        ∧ (redo s).live = s.history.getD (s.index + 1) emptySnap
        ∧ (redo s).selected = none)
    ∧ (undo s).history = s.history
    ∧ (redo s).history = s.history :=
  undo_redo_move_cursor _ (by decide)

/-- C4 (failing behavior, evaluated): from one committed snapshot
`snapA`, doing `undo()` and then immediately committing `snapB` does NOT
truncate-and-append — the armed guard swallows the commit, the history
stays `[emptySnap, snapA]` with the cursor at 0 and the live graph at
`snapB`, and the subsequent `redo()` is not a no-op: it replaces the
live graph with the stale future `snapA`. -/
theorem undo_then_commit_swallowed :
    run [Op.commit snapA, Op.undo, Op.commit snapB] =
      { history := [emptySnap, snapA], index := 0, guard := false,
        live := snapB, selected := none }
    ∧ redo (run [Op.commit snapA, Op.undo, Op.commit snapB]) ≠
        run [Op.commit snapA, Op.undo, Op.commit snapB]
    ∧ (redo (run [Op.commit snapA, Op.undo, Op.commit snapB])).index = 1
    ∧ (redo (run [Op.commit snapA, Op.undo, Op.commit snapB])).live =
        snapA := by
  decide

/-- C10 (counterexample to the unrestricted claim): after the reachable
trace commit `snapA`, `undo()`, commit `snapB` — only two commits, far
below the cap — the cursor already sits at 0, so the "full sequence of
undos" is empty, yet the live graph is `snapB`, not the empty graph
(history entry 0 is still the empty graph). -/
theorem undo_all_after_swallowed_commit_counterexample :
    commitCount [Op.commit snapA, Op.undo, Op.commit snapB] = 2
    ∧ (run [Op.commit snapA, Op.undo, Op.commit snapB]).index = 0
    ∧ undo (run [Op.commit snapA, Op.undo, Op.commit snapB]) =
        run [Op.commit snapA, Op.undo, Op.commit snapB]
    ∧ (run [Op.commit snapA, Op.undo, Op.commit snapB]).live ≠ emptySnap
    ∧ (run [Op.commit snapA, Op.undo, Op.commit snapB]).history.getD 0
        emptySnap = emptySnap := by
  decide

lemma getD_zero_take_append (n : Nat) (hist : List Snapshot)
    (snap : Snapshot) (hne : hist ≠ []) :
    (hist.take (n + 1) ++ [snap]).getD 0 emptySnap =
      hist.getD 0 emptySnap := by
  cases hist with
  | nil => exact absurd rfl hne
  | cons a t => rfl

lemma head_preserved : ∀ (ops : List Op) (s : HState),
    s.index < s.history.length →
    s.history.length + commitCount ops ≤ MAX_HISTORY →
    s.history.getD 0 emptySnap = emptySnap →
    (ops.foldl step s).history.getD 0 emptySnap = emptySnap
    ∧ (ops.foldl step s).history.length ≤
        s.history.length + commitCount ops
    ∧ (ops.foldl step s).index < (ops.foldl step s).history.length := by
  intro ops
  induction ops with
  | nil =>
    intro s h1 h2 h3
    refine ⟨h3, ?_, h1⟩
    simp only [List.foldl_nil, commitCount]
    omega
  | cons op rest ih =>
    intro s h1 h2 h3
    simp only [List.foldl_cons]
    cases op with
    | commit snap =>
      simp only [commitCount] at h2
      simp only [step]
      by_cases hg : s.guard = true
      · rw [commit_guard_eq snap s hg]
        obtain ⟨a, b, c⟩ := ih { s with live := snap, guard := false } h1
          (by show s.history.length + commitCount rest ≤ MAX_HISTORY
              omega) h3
        refine ⟨a, ?_, c⟩
        have b' : (List.foldl step
            { s with live := snap, guard := false } rest).history.length ≤
            s.history.length + commitCount rest := b
        simp only [commitCount]
        omega
      · have hg' : s.guard = false := by simpa using hg
        rw [commit_eq snap s hg']
        have hlen1 : (s.history.take (s.index + 1) ++ [snap]).length =
            s.index + 2 := by
          rw [List.length_append, List.length_take]
          simp only [List.length_cons, List.length_nil]
          omega
        have hcap : ¬ MAX_HISTORY <
            (s.history.take (s.index + 1) ++ [snap]).length := by
          rw [hlen1]
          unfold MAX_HISTORY at *
          omega
        have hnh : newHist snap s.history s.index =
            s.history.take (s.index + 1) ++ [snap] := by
          unfold newHist
          rw [if_neg hcap]
        have hne : s.history ≠ [] := by
          intro hcontra
          rw [hcontra] at h1
          simp at h1
        have hhead : (newHist snap s.history s.index).getD 0 emptySnap =
            emptySnap := by
          rw [hnh, getD_zero_take_append s.index s.history snap hne]
          exact h3
        have hlen : (newHist snap s.history s.index).length =
            s.index + 2 := by
          rw [hnh, hlen1]
        obtain ⟨a, b, c⟩ := ih
          { s with live := snap,
                   history := newHist snap s.history s.index,
                   index := (newHist snap s.history s.index).length - 1 }
          (by show (newHist snap s.history s.index).length - 1 <
                (newHist snap s.history s.index).length
              rw [hlen]
              omega)
          (by show (newHist snap s.history s.index).length +
                commitCount rest ≤ MAX_HISTORY
              rw [hlen]
              unfold MAX_HISTORY at *
              omega)
          (by show (newHist snap s.history s.index).getD 0 emptySnap =
                emptySnap
              exact hhead)
        refine ⟨a, ?_, c⟩
        have b' : (List.foldl step
            { s with live := snap,
                     history := newHist snap s.history s.index,
                     index :=
                       (newHist snap s.history s.index).length - 1 }
            rest).history.length ≤
            (newHist snap s.history s.index).length + commitCount rest := b
        simp only [commitCount]
        omega
    | undo =>
      simp only [commitCount] at h2
      simp only [step]
      by_cases h0 : s.index = 0
      · rw [undo_zero_eq s h0]
        obtain ⟨a, b, c⟩ := ih s h1 (by omega) h3
        refine ⟨a, ?_, c⟩
        simp only [commitCount]
        exact b
      · rw [undo_pos_eq s h0]
        obtain ⟨a, b, c⟩ := ih
          { s with guard := true, index := s.index - 1,
                   live := s.history.getD (s.index - 1) emptySnap,
                   selected := none }
          (by show s.index - 1 < s.history.length
              omega)
          (by show s.history.length + commitCount rest ≤ MAX_HISTORY
              omega) h3
        refine ⟨a, ?_, c⟩
        have b' : (List.foldl step
            { s with guard := true, index := s.index - 1,
                     live := s.history.getD (s.index - 1) emptySnap,
                     selected := none } rest).history.length ≤
            s.history.length + commitCount rest := b
        simp only [commitCount]
        exact b'
    | redo =>
      simp only [commitCount] at h2
      simp only [step]
      by_cases h0 : s.history.length - 1 ≤ s.index
      · rw [redo_last_eq s h0]
        obtain ⟨a, b, c⟩ := ih s h1 (by omega) h3
        refine ⟨a, ?_, c⟩
        simp only [commitCount]
        exact b
      · rw [redo_mid_eq s h0]
        obtain ⟨a, b, c⟩ := ih
          { s with guard := true, index := s.index + 1,
                   live := s.history.getD (s.index + 1) emptySnap,
                   selected := none }
          (by show s.index + 1 < s.history.length
              omega)
          (by show s.history.length + commitCount rest ≤ MAX_HISTORY
              omega) h3
        refine ⟨a, ?_, c⟩
        have b' : (List.foldl step
            { s with guard := true, index := s.index + 1,
                     live := s.history.getD (s.index + 1) emptySnap,
                     selected := none } rest).history.length ≤
            s.history.length + commitCount rest := b
        simp only [commitCount]
        exact b'

/-- C10 (amended): the history starts as exactly one snapshot — the
empty graph — at cursor 0; after the first committed mutation a single
`undo()` restores the empty graph; and in any state reachable with at
most 49 commits, history entry 0 is still the empty graph, so whenever
the cursor is positive, undoing it all the way down lands on cursor 0
with the live graph equal to the empty graph and a further `undo()` a
no-op.  (When the cursor is already 0 the undo sequence is empty and
the live graph may differ from the empty graph — see the
counterexample.) -/
theorem history_starts_and_bottoms_at_empty (ops : List Op) (A : Snapshot)
    (hc : commitCount ops ≤ 49) :
    initState.history = [emptySnap]
    ∧ initState.index = 0
    ∧ (undo (commit A initState)).live = emptySnap
    ∧ (undo (commit A initState)).index = 0
    ∧ (run ops).history.getD 0 emptySnap = emptySnap
    ∧ (0 < (run ops).index →
        (undo^[(run ops).index] (run ops)).live = emptySnap
        ∧ (undo^[(run ops).index] (run ops)).index = 0
        ∧ undo (undo^[(run ops).index] (run ops)) =
            undo^[(run ops).index] (run ops)) := by
  obtain ⟨hhead, hlen, hidx⟩ := head_preserved ops initState (by decide)
    (by show initState.history.length + commitCount ops ≤ MAX_HISTORY
        have h1 : initState.history.length = 1 := by decide
        unfold MAX_HISTORY
        omega)
    (by decide)
  refine ⟨rfl, rfl, rfl, rfl, hhead, ?_⟩
  intro hp
  obtain ⟨u1, u2, u3⟩ :=
    undo_iter ((run ops).index) (run ops) le_rfl hidx
  obtain ⟨ua, ub, uc⟩ := u3 hp
  have hidx0 : (undo^[(run ops).index] (run ops)).index = 0 := by
    rw [u2]
    omega
  refine ⟨?_, hidx0, undo_zero_eq _ hidx0⟩
  rw [ua]
  have hz : (run ops).index - (run ops).index = 0 := by omega
  rw [hz]
  exact hhead

/-- Closed instance of `history_starts_and_bottoms_at_empty`: two
commits (`snapA` then `snapB`) and the full undo descent. -/
theorem history_starts_and_bottoms_at_empty_witness :
    commitCount [Op.commit snapA, Op.commit snapB] ≤ 49
    ∧ (initState.history = [emptySnap]
    ∧ initState.index = 0
    ∧ (undo (commit snapA initState)).live = emptySnap
    ∧ (undo (commit snapA initState)).index = 0
    ∧ (run [Op.commit snapA, Op.commit snapB]).history.getD 0 emptySnap =
        emptySnap
    ∧ (0 < (run [Op.commit snapA, Op.commit snapB]).index →
        (undo^[(run [Op.commit snapA, Op.commit snapB]).index]
            (run [Op.commit snapA, Op.commit snapB])).live = emptySnap
        ∧ (undo^[(run [Op.commit snapA, Op.commit snapB]).index]
            (run [Op.commit snapA, Op.commit snapB])).index = 0
        ∧ undo (undo^[(run [Op.commit snapA, Op.commit snapB]).index]
            (run [Op.commit snapA, Op.commit snapB])) =
            undo^[(run [Op.commit snapA, Op.commit snapB]).index]
              (run [Op.commit snapA, Op.commit snapB]))) :=
  ⟨by decide,
    history_starts_and_bottoms_at_empty [Op.commit snapA, Op.commit snapB]
      snapA (by decide)⟩

/-- Closed instance of `onSave_empty_flow`: an empty node list with a
stray edge still reports the empty-flow error. -/
theorem onSave_empty_flow_witness :
    onSave []
      [{ id := "e1", source := "A", sourceHandle := none,
         target := "B", targetHandle := none, animated := true }] =
      .emptyFlow :=
  onSave_empty_flow _
